import Mathlib

/-!
Formal model of `tools/build.py` from the bring-recipes repository.

The script is a single-pass static site generator: it loads recipe records
from JSON files, validates four required keys, renders one HTML page per
record (with an embedded JSON-LD block and a Bring! import deeplink) and an
index page, and writes everything below a docs directory.

The model below is a shallow embedding: every Python function of the script
is translated to a pure Lean function; file writes become updates of an
explicit map from (docs-relative) paths to file contents.  Machine-level
details that the script relies on (UTF-8 encoding, percent encoding,
`json.dumps` string escaping) are modelled on `Nat` byte values and
`List Char`.
-/

/--
One recipe record as parsed from a JSON file under `recipes/`.  A `none` in
one of the four required fields models a JSON object in which the key is
absent; for the optional fields `none` conflates an absent key with JSON
`null` (the script treats both identically via `dict.get`).  Field values are
typed according to the data model of the input files: strings, and string
lists for ingredients/instructions.
-/
structure RecipeData where
  slug : Option String
  name : Option String
  ingredients : Option (List String)
  instructions : Option (List String)
  yield : Option String
  time : Option String
  image_file : Option String
deriving DecidableEq

/-- `REPO_PAGES_BASE` from `build.py`. -/
def REPO_PAGES_BASE : String := "https://Sabsx.github.io/bring-recipes"

/-- `ASSETS_IMAGES` from `build.py`. -/
def ASSETS_IMAGES : String := "assets/images"

/-- Python truthiness of `r.get(key)` for an optional string field:
`None` (absent key) and the empty string are falsy. -/
def truthyStr : Option String → Bool
  | none => false
  | some s => s != ""

/-- The plate emoji `🍽️` used in the meta line: U+1F37D followed by the
variation selector U+FE0F, exactly as in the source bytes. -/
def dishEmoji : String := String.mk [Char.ofNat 0x1F37D, Char.ofNat 0xFE0F]

/-- The stopwatch emoji `⏱️` used in the meta line: U+23F1 followed by U+FE0F. -/
def timerEmoji : String := String.mk [Char.ofNat 0x23F1, Char.ofNat 0xFE0F]

/-- The separator `" • "` (space, U+2022 bullet, space) of `" • ".join`. -/
def metaSep : String := String.mk [' ', Char.ofNat 0x2022, ' ']

/-- `str.join`: `joinSep sep [a, b, c] = a ++ sep ++ b ++ sep ++ c`. -/
def joinSep (sep : String) : List String → String
  | [] => ""
  | [x] => x
  | x :: y :: xs => x ++ sep ++ joinSep sep (y :: xs)

/-- The meta line composed in `build_recipe_page` (build.py lines 147-152):
parts for truthy yield and time joined with `" • "`, else a fixed fallback. -/
def metaLine (r : RecipeData) : String :=
  let parts : List String :=
    (if truthyStr r.yield then [dishEmoji ++ " " ++ r.yield.getD ""] else []) ++
    (if truthyStr r.time then [timerEmoji ++ " " ++ r.time.getD ""] else [])
  if parts = [] then "Bring!-Import kompatibel" else joinSep metaSep parts

/-- A record with yield "4 Portionen" and no time, used as the concrete
instance named by claim C4. -/
def recYieldOnly : RecipeData :=
  ⟨some "s", some "n", some [], some [], some "4 Portionen", none, none⟩

/-- A record with neither yield nor time. -/
def recNoMeta : RecipeData :=
  ⟨some "s", some "n", some [], some [], none, none, none⟩

/-- Claim C4: for every record the metadata line equals "🍽️ {yield}" and/or
"⏱️ {time}" for whichever of yield and time exists (is present and non-empty,
which is the script's truthiness test), joined with " • " when both exist,
and equals the fixed fallback "Bring!-Import kompatibel" when neither exists;
in particular for yield "4 Portionen" and no time it reads "🍽️ 4 Portionen". -/
theorem c4_meta_line :
    (∀ r : RecipeData,
      metaLine r =
        if truthyStr r.yield then
          (if truthyStr r.time then
            dishEmoji ++ " " ++ r.yield.getD "" ++ metaSep ++
              (timerEmoji ++ " " ++ r.time.getD "")
          else dishEmoji ++ " " ++ r.yield.getD "")
        else
          (if truthyStr r.time then timerEmoji ++ " " ++ r.time.getD ""
          else "Bring!-Import kompatibel"))
    ∧ metaLine recYieldOnly = dishEmoji ++ " 4 Portionen"
    ∧ metaLine recNoMeta = "Bring!-Import kompatibel" := by
  refine ⟨fun r => ?_, rfl, rfl⟩
  unfold metaLine
  cases hy : truthyStr r.yield <;> cases ht : truthyStr r.time <;>
    simp [hy, ht, joinSep]

/-- `html.escape(s, quote=True)` on one character.  The sequence of
`str.replace` calls in `html.escape` (first `&`, then `<`, `>`, `"`, `'`)
is equivalent to this single character-wise pass. -/
def escHtmlChar (c : Char) : List Char :=
  if c = '&' then "&amp;".data
  else if c = '<' then "&lt;".data
  else if c = '>' then "&gt;".data
  else if c = '"' then "&quot;".data
  else if c = Char.ofNat 39 then "&#x27;".data
  else [c]

/-- `html.escape` (imported as `escape` in build.py). -/
def escape (s : String) : String := String.mk (s.data.flatMap escHtmlChar)

/-- The per-recipe list of `<li>` lines for the ingredients
(build.py line 144). -/
def ingredients_html (r : RecipeData) : String :=
  joinSep "\n" ((r.ingredients.getD []).map
    (fun x => "            <li>" ++ escape x ++ "</li>"))

/-- The per-recipe list of `<li>` lines for the instructions
(build.py line 145). -/
def instructions_html (r : RecipeData) : String :=
  joinSep "\n" ((r.instructions.getD []).map
    (fun x => "            <li>" ++ escape x ++ "</li>"))

/-- Whether a byte is kept verbatim by `urllib.parse.quote(·, safe="")`:
ASCII letters, digits, and `_ . - ~`. -/
def isUnreservedByte (n : Nat) : Bool :=
  (65 ≤ n && n ≤ 90) || (97 ≤ n && n ≤ 122) || (48 ≤ n && n ≤ 57) ||
    n == 95 || n == 46 || n == 45 || n == 126

/-- Uppercase hex digit, as produced by `urllib.parse.quote`. -/
def hexUpper : Nat → Char
  | 0 => '0' | 1 => '1' | 2 => '2' | 3 => '3' | 4 => '4'
  | 5 => '5' | 6 => '6' | 7 => '7' | 8 => '8' | 9 => '9'
  | 10 => 'A' | 11 => 'B' | 12 => 'C' | 13 => 'D' | 14 => 'E' | 15 => 'F'
  | _ + 16 => '0'

/-- Lowercase hex digit, as produced by `json.dumps` \uXXXX escapes. -/
def hexLower : Nat → Char
  | 0 => '0' | 1 => '1' | 2 => '2' | 3 => '3' | 4 => '4'
  | 5 => '5' | 6 => '6' | 7 => '7' | 8 => '8' | 9 => '9'
  | 10 => 'a' | 11 => 'b' | 12 => 'c' | 13 => 'd' | 14 => 'e' | 15 => 'f'
  | _ + 16 => '0'

/-- The UTF-8 encoding of a unicode scalar value, as a list of byte values. -/
def utf8EncodeChar (n : Nat) : List Nat :=
  if n < 0x80 then [n]
  else if n < 0x800 then [0xC0 + n / 0x40, 0x80 + n % 0x40]
  else if n < 0x10000 then
    [0xE0 + n / 0x1000, 0x80 + n / 0x40 % 0x40, 0x80 + n % 0x40]
  else
    [0xF0 + n / 0x40000, 0x80 + n / 0x1000 % 0x40, 0x80 + n / 0x40 % 0x40,
      0x80 + n % 0x40]

/-- `urllib.parse.quote(·, safe="")` on one character: an unreserved ASCII
byte passes through, every other UTF-8 byte becomes `%XX` (uppercase hex). -/
def quoteChar (c : Char) : List Char :=
  if isUnreservedByte c.toNat then [c]
  else (utf8EncodeChar c.toNat).flatMap
    (fun b => ['%', hexUpper (b / 16), hexUpper (b % 16)])

/-- `urllib.parse.quote(s, safe="")`. -/
def quote (s : String) : String := String.mk (s.data.flatMap quoteChar)

/-- `recipe_url` from `build_recipe_page`: `{REPO_PAGES_BASE}/{slug}/`. -/
def recipe_url (r : RecipeData) : String :=
  REPO_PAGES_BASE ++ "/" ++ r.slug.getD "" ++ "/"

/-- `bring_link` from `build_recipe_page` (build.py lines 120-125). -/
def bring_link (r : RecipeData) : String :=
  "https://api.getbring.com/rest/bringrecipes/deeplink?url=" ++
    quote (recipe_url r) ++ "&source=web"

/-- `image_url` from `build_recipe_page` (build.py lines 128-130): an absolute
image URL when a truthy `image_file` is present, else `None`. -/
def image_url (r : RecipeData) : Option String :=
  if truthyStr r.image_file then
    some (REPO_PAGES_BASE ++ "/" ++ ASSETS_IMAGES ++ "/" ++ r.image_file.getD "")
  else none

/-- `hero_img` from `build_recipe_page` (build.py lines 154-156). -/
def hero_img (r : RecipeData) : String :=
  if truthyStr r.image_file then
    "<img class=\"hero\" src=\"../" ++ ASSETS_IMAGES ++ "/" ++
      escape (r.image_file.getD "") ++ "\" alt=\"" ++ escape (r.name.getD "") ++
      "\" />"
  else ""

/-- A JSON value of one of the shapes stored in the `jsonld_obj` dict of
`build_recipe_page`: a string, a string list (recipeIngredient), or the
`recipeInstructions` list of `{"@type": "HowToStep", "text": t}` objects,
represented by its list of step texts. -/
inductive JVal where
  | s (v : String)
  | sList (v : List String)
  | steps (v : List String)
deriving DecidableEq

/-- Python `v == ""` on a dict value of these shapes (a list never
compares equal to a string). -/
def isEmptyJVal : JVal → Bool
  | JVal.s v => v == ""
  | JVal.sList _ => false
  | JVal.steps _ => false

/-- The comprehension filter of `clean_none` applied to one key/value pair:
the pair is kept when its value is neither `None` nor `""`. -/
def cleanEntry : String × Option JVal → Option (String × JVal)
  | (_, none) => none
  | (k, some v) => if isEmptyJVal v then none else some (k, v)

/-- `clean_none` from build.py (lines 101-102): drop the keys whose value is
`None` or `""`. -/
def clean_none (d : List (String × Option JVal)) : List (String × JVal) :=
  d.filterMap cleanEntry

/-- The dict literal passed to `clean_none` in `build_recipe_page`
(build.py lines 132-140), in its insertion order. -/
def jsonld_entries (r : RecipeData) : List (String × Option JVal) :=
  [("@context", some (JVal.s "https://schema.org")),
   ("@type", some (JVal.s "Recipe")),
   ("name", some (JVal.s (r.name.getD ""))),
   ("image", (image_url r).map JVal.s),
   ("recipeYield", r.yield.map JVal.s),
   ("recipeIngredient", some (JVal.sList (r.ingredients.getD []))),
   ("recipeInstructions", some (JVal.steps (r.instructions.getD [])))]

/-- `jsonld_obj` from `build_recipe_page`. -/
def jsonld_obj (r : RecipeData) : List (String × JVal) :=
  clean_none (jsonld_entries r)

/-- `json.dumps(…, ensure_ascii=False)` escaping of one character inside a
string literal: `"`, `\`, and control characters are escaped, everything
else (including non-ASCII) passes through. -/
def expandChar (c : Char) : List Char :=
  if c = '"' then ['\\', '"']
  else if c = '\\' then ['\\', '\\']
  else if c = '\n' then ['\\', 'n']
  else if c = '\t' then ['\\', 't']
  else if c = '\r' then ['\\', 'r']
  else if c.toNat = 8 then ['\\', 'b']
  else if c.toNat = 12 then ['\\', 'f']
  else if c.toNat < 32 then
    ['\\', 'u', '0', '0', hexLower (c.toNat / 16), hexLower (c.toNat % 16)]
  else [c]

/-- The escaped body of a JSON string literal. -/
def jsonEsc (s : String) : String := String.mk (s.data.flatMap expandChar)

/-- A JSON string literal as serialized by `json.dumps`. -/
def strLit (s : String) : String := "\"" ++ jsonEsc s ++ "\""

/-- `json.dumps(…, indent=2)` of a string list sitting at a top-level key. -/
def dumpStrList : List String → String
  | [] => "[]"
  | x :: xs => "[\n    " ++ joinSep ",\n    " ((x :: xs).map strLit) ++ "\n  ]"

/-- One HowToStep object as serialized inside `recipeInstructions`. -/
def dumpStep (t : String) : String :=
  "\x7b\n      \"@type\": \"HowToStep\",\n      \"text\": " ++ strLit t ++
    "\n    \x7d"

/-- `json.dumps(…, indent=2)` of the `recipeInstructions` list. -/
def dumpSteps : List String → String
  | [] => "[]"
  | x :: xs => "[\n    " ++ joinSep ",\n    " ((x :: xs).map dumpStep) ++ "\n  ]"

/-- Serialization of one value of the jsonld dict. -/
def dumpJVal : JVal → String
  | JVal.s v => strLit v
  | JVal.sList v => dumpStrList v
  | JVal.steps v => dumpSteps v

/-- One `"key": value` item of the top-level object. -/
def dumpPair (kv : String × JVal) : String :=
  strLit kv.1 ++ ": " ++ dumpJVal kv.2

/-- `json.dumps(obj, ensure_ascii=False, indent=2)` for the top-level object,
on the value shapes that `build_recipe_page` constructs. -/
def dumpObj : List (String × JVal) → String
  | [] => "\x7b\x7d"
  | x :: xs => "\x7b\n  " ++ joinSep ",\n  " ((x :: xs).map dumpPair) ++ "\n\x7d"

/-- One character of `"\n".join("  " + line for line in s.splitlines())`:
every newline gets two spaces after it (the dumps output has no trailing
newline and uses \n as its only line separator). -/
def indentChar (c : Char) : List Char :=
  if c = '\n' then ['\n', ' ', ' '] else [c]

/-- Line 142 of build.py: prefix every line of the dumped JSON with 2 spaces. -/
def pyIndent (s : String) : String :=
  "  " ++ String.mk (s.data.flatMap indentChar)

/-- `jsonld` from `build_recipe_page` (lines 141-142): the indented dump of
the cleaned object. -/
def jsonld (r : RecipeData) : String := pyIndent (dumpObj (jsonld_obj r))

/-- `title` in `build_recipe_page`: `r["name"]`. -/
def rTitle (r : RecipeData) : String := r.name.getD ""

/-- `desc` in `build_recipe_page`. -/
def rDesc (r : RecipeData) : String := "Privates Rezept: " ++ rTitle r

/-- HTML_TEMPLATE up to the `{title}` placeholder. -/
def pageT0 : String :=
  "<!doctype html>\n<html lang=\"de\">\n<head>\n  <meta charset=\"utf-8\" />\n  <meta name=\"viewport\" content=\"width=device-width,initial-scale=1\" />\n  <title>"

/-- HTML_TEMPLATE between `{title}` and `{desc}`. -/
def pageT1 : String := "</title>\n  <meta name=\"description\" content=\""

/-- HTML_TEMPLATE between `{desc}` and `{jsonld}`. -/
def pageT2 : String :=
  "\">\n  <link rel=\"stylesheet\" href=\"../assets/style.css\" />\n\n  <script type=\"application/ld+json\">\n"

/-- HTML_TEMPLATE between `{jsonld}` and the second `{title}`. -/
def pageT3 : String :=
  "\n  </script>\n</head>\n<body>\n  <main class=\"wrap\">\n    <h1>"

/-- HTML_TEMPLATE between the second `{title}` and `{meta}`. -/
def pageT4 : String := "</h1>\n    <div class=\"sub\">"

/-- HTML_TEMPLATE between `{meta}` and `{bring_link}`. -/
def pageT5 : String :=
  "</div>\n\n  <div class=\"btnrow\">\n    <a class=\"btn\" href=\""

/-- HTML_TEMPLATE between `{bring_link}` and `{hero_img}`. -/
def pageT6 : String :=
  "\">🛒 In Bring! importieren</a>\n    <a class=\"btn\" href=\"../\">← zurück</a>\n  </div>\n\n    "

/-- HTML_TEMPLATE between `{hero_img}` and `{ingredients_html}`. -/
def pageT7 : String :=
  "\n\n    <section class=\"grid\">\n      <article class=\"card\">\n        <div class=\"hd\">🧾 Zutaten</div>\n        <div class=\"bd\">\n          <ul>\n"

/-- HTML_TEMPLATE between `{ingredients_html}` and `{instructions_html}`. -/
def pageT8 : String :=
  "\n          </ul>\n        </div>\n      </article>\n\n      <article class=\"card\">\n        <div class=\"hd\">👨‍🍳 Zubereitung</div>\n        <div class=\"bd\">\n          <ol>\n"

/-- HTML_TEMPLATE after `{instructions_html}`. -/
def pageT9 : String :=
  "\n          </ol>\n        </div>\n      </article>\n    </section>\n\n    <footer>\n      <a class=\"btn\" href=\"../\">← zurück</a>\n    </footer>\n  </main>\n</body>\n</html>\n"

/-- `HTML_TEMPLATE.format(...)` from `build_recipe_page`
(build.py lines 158-167). -/
def build_recipe_page_html (r : RecipeData) : String :=
  pageT0 ++ escape (rTitle r) ++ pageT1 ++ escape (rDesc r) ++ pageT2 ++
    jsonld r ++ pageT3 ++ escape (rTitle r) ++ pageT4 ++ escape (metaLine r) ++
    pageT5 ++ bring_link r ++ pageT6 ++ hero_img r ++ pageT7 ++
    ingredients_html r ++ pageT8 ++ instructions_html r ++ pageT9

/-- INDEX_TEMPLATE up to `{links_html}`. -/
def idxT0 : String :=
  "<!doctype html>\n<html lang=\"de\">\n<head>\n  <meta charset=\"utf-8\" />\n  <meta name=\"viewport\" content=\"width=device-width,initial-scale=1\" />\n  <title>Rezepte</title>\n  <link rel=\"stylesheet\" href=\"./assets/style.css\" />\n</head>\n<body>\n  <main class=\"wrap\">\n    <h1>Rezepte</h1>\n    <div class=\"sub\">Private Rezeptseiten für Bring!-Import</div>\n\n    <section class=\"card\">\n      <div class=\"hd\">📚 Liste</div>\n      <div class=\"bd\">\n        <ul>\n"

/-- INDEX_TEMPLATE after `{links_html}`. -/
def idxT1 : String :=
  "\n        </ul>\n      </div>\n    </section>\n\n    <footer>\n      <span class=\"muted\">Tipp:</span> Öffne ein Rezept und tippe auf <strong>„In Bring! importieren“</strong>.\n    </footer>\n  </main>\n</body>\n</html>\n"

/-- `links_html` from `build_index` (build.py lines 174-179). -/
def links_html (recipes : List RecipeData) : String :=
  joinSep "\n" (recipes.map (fun r =>
    "          <li><a href=\"./" ++ escape (r.slug.getD "") ++ "/\">" ++
      escape (r.name.getD "") ++ "</a></li>"))

/-- `INDEX_TEMPLATE.format(links_html=links_html)`. -/
def build_index_html (recipes : List RecipeData) : String :=
  idxT0 ++ links_html recipes ++ idxT1

/-- The output tree below `docs/`, as a map from docs-relative paths to file
contents; `none` means the file does not exist.  This models the only state
the script mutates. -/
abbrev FS := String → Option String

/-- `Path.write_text`: overwrite one file unconditionally. -/
def fsWrite (fs : FS) (p c : String) : FS :=
  fun q => if q = p then some c else fs q

/-- An output directory with no files. -/
def fsEmpty : FS := fun _ => none

/-- The docs-relative output path of a recipe page: `{slug}/index.html`
(build.py lines 169-171). -/
def pagePath (r : RecipeData) : String := r.slug.getD "" ++ "/index.html"

/-- `build_recipe_page` (build.py lines 114-171): build the page text and
write it under the slug directory. -/
def build_recipe_page (fs : FS) (r : RecipeData) : FS :=
  fsWrite fs (pagePath r) (build_recipe_page_html r)

/-- `build_index` (build.py lines 173-182). -/
def build_index (fs : FS) (recipes : List RecipeData) : FS :=
  fsWrite fs "index.html" (build_index_html recipes)

/-- The first key of `("slug", "name", "ingredients", "instructions")` missing
from the record, if any (`load_recipes`, build.py lines 108-110). -/
def requiredMissing (r : RecipeData) : Option String :=
  if r.slug = none then some "slug"
  else if r.name = none then some "name"
  else if r.ingredients = none then some "ingredients"
  else if r.instructions = none then some "instructions"
  else none

/-- The apostrophe character, as it appears in the ValueError message. -/
def apos : String := String.mk [Char.ofNat 39]

/-- The message of the ValueError raised for file `f` with missing key `k`:
`f"{p}: missing '{key}'"`. -/
def missingMsg (f k : String) : String := f ++ ": missing " ++ apos ++ k ++ apos

/-- `load_recipes` (build.py lines 104-112).  The argument is the listing of
`recipes/*.json` in sorted filename order, each file already parsed into a
record; the result is the ordered record list, or the ValueError raised at
the first file in that order with a missing required key. -/
def load_recipes : List (String × RecipeData) → Except String (List RecipeData)
  | [] => Except.ok []
  | (f, r) :: rest =>
    match requiredMissing r with
    | some k => Except.error (missingMsg f k)
    | none =>
      match load_recipes rest with
      | Except.error e => Except.error e
      | Except.ok out => Except.ok (r :: out)

/-- `main` (build.py lines 184-192; named mainBuild here since a Lean `main` must be an IO entry point): load, then write every recipe page, then
the index page; returns the final output tree together with the count of
recipes built, or the uncaught load error with the tree untouched. -/
def mainBuild (fs : FS) (files : List (String × RecipeData)) :
    FS × Except String Nat :=
  match load_recipes files with
  | Except.error e => (fs, Except.error e)
  | Except.ok recipes =>
    (build_index (recipes.foldl build_recipe_page fs) recipes,
      Except.ok recipes.length)

/-- The content of the last write to path `q` among the listed writes
(proof device for the overwrite behavior of sequential writes). -/
def lastAssoc (q : String) : List (String × String) → Option String
  | [] => none
  | (p, c) :: ws =>
    match lastAssoc q ws with
    | some c2 => some c2
    | none => if p = q then some c else none

/-- The write list performed by the page loop of `main`. -/
def pageWrites (recipes : List RecipeData) : List (String × String) :=
  recipes.map (fun r => (pagePath r, build_recipe_page_html r))

/-- The last record of the list carrying the given slug. -/
def lastWithSlug (slug : String) : List RecipeData → Option RecipeData
  | [] => none
  | r :: rs =>
    match lastWithSlug slug rs with
    | some x => some x
    | none => if r.slug.getD "" = slug then some r else none

/-- The spec-side reading of "required field `k` is missing from record `r`". -/
def missingField (r : RecipeData) (k : String) : Prop :=
  (k = "slug" ∧ r.slug = none) ∨ (k = "name" ∧ r.name = none) ∨
    (k = "ingredients" ∧ r.ingredients = none) ∨
    (k = "instructions" ∧ r.instructions = none)

/-- Sequential `fsWrite`s (the page loop of `mainBuild`, as a write list). -/
def applyWrites (fs : FS) : List (String × String) → FS
  | [] => fs
  | (p, c) :: ws => applyWrites (fsWrite fs p c) ws

/-- `int(c, 16)` on a hex digit character. -/
def hexVal (c : Char) : Nat :=
  if 97 ≤ c.toNat then c.toNat - 87
  else if 65 ≤ c.toNat then c.toNat - 55
  else c.toNat - 48

/-- Whether `c` is an ASCII hex digit, as accepted by `urllib.parse.unquote`
(both cases). -/
def isHexChar (c : Char) : Bool :=
  (48 ≤ c.toNat && c.toNat ≤ 57) || (65 ≤ c.toNat && c.toNat ≤ 70) ||
    (97 ≤ c.toNat && c.toNat ≤ 102)

/-- `urllib.parse.unquote` at byte level: a `%` followed by two hex digits
becomes that byte, any other character contributes its UTF-8 bytes
(a malformed `%` sequence is kept literally, as unquote does). -/
def unquoteBytes : List Char → List Nat
  | [] => []
  | '%' :: a :: b :: rest2 =>
    if isHexChar a && isHexChar b then
      (hexVal a * 16 + hexVal b) :: unquoteBytes rest2
    else utf8EncodeChar ('%'.toNat) ++ unquoteBytes (a :: b :: rest2)
  | c :: rest => utf8EncodeChar c.toNat ++ unquoteBytes rest

/-- UTF-8 decoding, one byte per step: `utf8Aux need lo acc l` expects `need`
more continuation bytes for a scalar value accumulated in `acc` that must end
up at least `lo` (overlong guard); surrogates and out-of-range values are
rejected, as Python's `bytes.decode("utf-8")` does. -/
def utf8Aux : Nat → Nat → Nat → List Nat → Option (List Char)
  | 0, _, _, [] => some []
  | _ + 1, _, _, [] => none
  | 0, _, _, b :: bs =>
    if b < 0x80 then (utf8Aux 0 0 0 bs).map (fun cs => Char.ofNat b :: cs)
    else if b < 0xC0 then none
    else if b < 0xE0 then utf8Aux 1 0x80 (b - 0xC0) bs
    else if b < 0xF0 then utf8Aux 2 0x800 (b - 0xE0) bs
    else if b < 0xF8 then utf8Aux 3 0x10000 (b - 0xF0) bs
    else none
  | 1, lo, acc, b :: bs =>
    if 0x80 ≤ b ∧ b < 0xC0 then
      if lo ≤ acc * 0x40 + (b - 0x80) ∧ acc * 0x40 + (b - 0x80) < 0x110000 ∧
          (acc * 0x40 + (b - 0x80) < 0xD800 ∨ 0xDFFF < acc * 0x40 + (b - 0x80)) then
        (utf8Aux 0 0 0 bs).map
          (fun cs => Char.ofNat (acc * 0x40 + (b - 0x80)) :: cs)
      else none
    else none
  | need + 2, lo, acc, b :: bs =>
    if 0x80 ≤ b ∧ b < 0xC0 then
      utf8Aux (need + 1) lo (acc * 0x40 + (b - 0x80)) bs
    else none

/-- UTF-8 decoding of a byte list; `none` on malformed input (stray or
missing continuation bytes, overlong forms, surrogates, out of range). -/
def utf8Decode (bs : List Nat) : Option (List Char) := utf8Aux 0 0 0 bs

/-- `urllib.parse.unquote` on a string: percent-decode to bytes, then decode
UTF-8 (`none` models a decoding failure, which unquote would replace). -/
def unquote (s : String) : Option String :=
  (utf8Decode (unquoteBytes s.data)).map String.mk

/-- The characters following the first occurrence of the pattern. -/
def afterPat (pat : List Char) : List Char → List Char
  | [] => []
  | c :: cs =>
    if pat.isPrefixOf (c :: cs) then (c :: cs).drop pat.length
    else afterPat pat cs

/-- The characters before the first `&`. -/
def takeUntilAmp : List Char → List Char
  | [] => []
  | c :: cs => if c = '&' then [] else c :: takeUntilAmp cs

/-- The value of the `url` query parameter of a link: the text after the
first `url=` and before the following `&`. -/
def urlParam (link : String) : String :=
  String.mk (takeUntilAmp (afterPat "url=".data link.data))

/-- The closing tag that would end the enclosing script block. -/
def closeTag : List Char := "</script>".data

/-- The string contains no script-closing tag. -/
def noCloseTag (s : String) : Prop := ¬ closeTag <:+: s.data

/-- A fully populated record, used by several witnesses. -/
def recFull : RecipeData :=
  ⟨some "apfelkuchen", some "Apfelkuchen", some ["Mehl", "Zucker"],
    some ["Mischen", "Backen"], some "4 Portionen", some "60 min",
    some "soup.jpg"⟩

/-- A record whose JSON file lacks the required `name` key. -/
def recNoName : RecipeData :=
  ⟨some "b", none, some ["x"], some ["y"], none, none, none⟩

/-- A second valid record sharing `recFull`'s slug. -/
def recDup : RecipeData :=
  ⟨some "apfelkuchen", some "Anderer Kuchen", some ["Butter"],
    some ["Verruehren"], none, none, none⟩

/-- A record whose name field contains a script-closing tag. -/
def recEvil : RecipeData :=
  ⟨some "evil", some "x</script>y", some [], some [], none, none, none⟩

/-- A listing with one valid and one invalid file. -/
def filesBad : List (String × RecipeData) :=
  [("a.json", recFull), ("b.json", recNoName)]

/-- A listing with two valid files sharing one slug. -/
def filesDup : List (String × RecipeData) :=
  [("a.json", recFull), ("b.json", recDup)]

/-- A listing with a single valid file. -/
def filesOk : List (String × RecipeData) := [("a.json", recFull)]

/-- A string occurs in a concatenation split around it. -/
theorem data_infix_of_split {s a x b : String} (h : s = a ++ (x ++ b)) :
    x.data <:+: s.data :=
  ⟨a.data, b.data, by subst h; simp [List.append_assoc]⟩

/-- A concatenation with a non-empty left part is non-empty. -/
theorem append_ne_empty_of_left {a b : String} (h : a ≠ "") : a ++ b ≠ "" := by
  intro hab
  apply h
  apply String.ext
  have h2 := congrArg String.data hab
  simp only [String.data_append] at h2
  have h3 := (List.append_eq_nil.mp h2).1
  simpa using h3

/-- Every value kept by `clean_none` is neither `None` nor `""`. -/
theorem mem_clean_none {l : List (String × Option JVal)} {kv : String × JVal}
    (h : kv ∈ clean_none l) : isEmptyJVal kv.2 = false := by
  unfold clean_none at h
  obtain ⟨⟨k0, v0⟩, _, hf⟩ := List.mem_filterMap.mp h
  cases v0 with
  | none => cases hf
  | some v =>
    rw [show cleanEntry (k0, some v) =
        if isEmptyJVal v = true then none else some (k0, v) from rfl] at hf
    by_cases he : isEmptyJVal v = true
    · rw [if_pos he] at hf; cases hf
    · rw [if_neg he] at hf
      injection hf with hf2
      subst hf2
      simpa using he

/-- Claim C3: for every record, the generated page contains one `<li>` line
for every ingredient and one for every instruction, each HTML-escaped, in
the order of the input record (the whole ingredient block and the whole
instruction block occur verbatim in the page). -/
theorem c3_li_items (r : RecipeData) :
    (joinSep "\n" ((r.ingredients.getD []).map
        (fun x => "            <li>" ++ escape x ++ "</li>"))).data <:+:
      (build_recipe_page_html r).data ∧
    (joinSep "\n" ((r.instructions.getD []).map
        (fun x => "            <li>" ++ escape x ++ "</li>"))).data <:+:
      (build_recipe_page_html r).data := by
  constructor
  · exact data_infix_of_split
      (a := pageT0 ++ escape (rTitle r) ++ pageT1 ++ escape (rDesc r) ++
        pageT2 ++ jsonld r ++ pageT3 ++ escape (rTitle r) ++ pageT4 ++
        escape (metaLine r) ++ pageT5 ++ bring_link r ++ pageT6 ++
        hero_img r ++ pageT7)
      (b := pageT8 ++ instructions_html r ++ pageT9)
      (by simp [build_recipe_page_html, ingredients_html, String.append_assoc])
  · exact data_infix_of_split
      (a := pageT0 ++ escape (rTitle r) ++ pageT1 ++ escape (rDesc r) ++
        pageT2 ++ jsonld r ++ pageT3 ++ escape (rTitle r) ++ pageT4 ++
        escape (metaLine r) ++ pageT5 ++ bring_link r ++ pageT6 ++
        hero_img r ++ pageT7 ++ ingredients_html r ++ pageT8)
      (b := pageT9)
      (by simp [build_recipe_page_html, instructions_html, String.append_assoc])

/-- Claim C5: with a truthy `image_file` the page carries the hero `<img>`
element and the structured data carries
`image = {base}/assets/images/{image_file}`; without one, the hero slot is
empty and the `image` key is absent. -/
theorem c5_hero_image (r : RecipeData) :
    (truthyStr r.image_file = true →
      hero_img r =
        "<img class=\"hero\" src=\"../" ++ ASSETS_IMAGES ++ "/" ++
          escape (r.image_file.getD "") ++ "\" alt=\"" ++
          escape (r.name.getD "") ++ "\" />" ∧
      (hero_img r).data <:+: (build_recipe_page_html r).data ∧
      List.lookup "image" (jsonld_obj r) =
        some (JVal.s (REPO_PAGES_BASE ++ "/" ++ ASSETS_IMAGES ++ "/" ++
          r.image_file.getD ""))) ∧
    (truthyStr r.image_file = false →
      hero_img r = "" ∧ List.lookup "image" (jsonld_obj r) = none) := by
  have hne : (REPO_PAGES_BASE ++ "/" ++ ASSETS_IMAGES ++ "/" ++
      r.image_file.getD "") ≠ "" :=
    append_ne_empty_of_left (by decide)
  constructor
  · intro h
    refine ⟨by simp [hero_img, h], ?_, ?_⟩
    · exact data_infix_of_split
        (a := pageT0 ++ escape (rTitle r) ++ pageT1 ++ escape (rDesc r) ++
          pageT2 ++ jsonld r ++ pageT3 ++ escape (rTitle r) ++ pageT4 ++
          escape (metaLine r) ++ pageT5 ++ bring_link r ++ pageT6)
        (b := pageT7 ++ ingredients_html r ++ pageT8 ++
          instructions_html r ++ pageT9)
        (by simp [build_recipe_page_html, String.append_assoc])
    · by_cases hn : r.name.getD "" = "" <;>
        simp [jsonld_obj, jsonld_entries, clean_none, cleanEntry, image_url, h,
          isEmptyJVal, hn, hne, List.lookup]
  · intro h
    refine ⟨by simp [hero_img, h], ?_⟩
    rcases hy : r.yield with _ | v
    · by_cases hn : r.name.getD "" = "" <;>
        simp [jsonld_obj, jsonld_entries, clean_none, cleanEntry, image_url, h,
          isEmptyJVal, hn, hy, List.lookup]
    · by_cases hn : r.name.getD "" = "" <;> by_cases hv : v = "" <;>
        simp [jsonld_obj, jsonld_entries, clean_none, cleanEntry, image_url, h,
          isEmptyJVal, hn, hy, hv, List.lookup]

/-- Witness for C5 at the concrete record `recFull` (image "soup.jpg"). -/
theorem c5_witness :
    hero_img recFull =
      "<img class=\"hero\" src=\"../" ++ ASSETS_IMAGES ++ "/" ++
        escape (recFull.image_file.getD "") ++ "\" alt=\"" ++
        escape (recFull.name.getD "") ++ "\" />" ∧
    (hero_img recFull).data <:+: (build_recipe_page_html recFull).data ∧
    List.lookup "image" (jsonld_obj recFull) =
      some (JVal.s (REPO_PAGES_BASE ++ "/" ++ ASSETS_IMAGES ++ "/" ++
        recFull.image_file.getD "")) :=
  (c5_hero_image recFull).1 (by decide)

/-- Claim C6: the embedded structured-data object keeps exactly the keys
whose value is present and non-empty (never emitting an absent value), and
in particular `recipeIngredient` and `recipeInstructions` are always
retained, `name` whenever it is non-empty. -/
theorem c6_jsonld_omits_empty (r : RecipeData) :
    (jsonld_obj r).map Prod.fst =
      ["@context", "@type"] ++
        (if r.name.getD "" = "" then [] else ["name"]) ++
        (if truthyStr r.image_file then ["image"] else []) ++
        (if truthyStr r.yield then ["recipeYield"] else []) ++
        ["recipeIngredient", "recipeInstructions"] ∧
    (∀ kv ∈ jsonld_obj r, isEmptyJVal kv.2 = false) ∧
    "recipeIngredient" ∈ (jsonld_obj r).map Prod.fst ∧
    "recipeInstructions" ∈ (jsonld_obj r).map Prod.fst := by
  have hne2 : ∀ b : String,
      (REPO_PAGES_BASE ++ "/" ++ ASSETS_IMAGES ++ "/" ++ b) ≠ "" :=
    fun _ => append_ne_empty_of_left (by decide)
  have hkeys : (jsonld_obj r).map Prod.fst =
      ["@context", "@type"] ++
        (if r.name.getD "" = "" then [] else ["name"]) ++
        (if truthyStr r.image_file then ["image"] else []) ++
        (if truthyStr r.yield then ["recipeYield"] else []) ++
        ["recipeIngredient", "recipeInstructions"] := by
    rcases hy : r.yield with _ | v
    · rcases hf : r.image_file with _ | f
      · by_cases hn : r.name.getD "" = "" <;>
          simp [jsonld_obj, jsonld_entries, clean_none, cleanEntry, image_url,
            isEmptyJVal, hy, hf, hn, truthyStr]
      · by_cases hn : r.name.getD "" = "" <;> by_cases hfv : f = "" <;>
          simp [jsonld_obj, jsonld_entries, clean_none, cleanEntry, image_url,
            isEmptyJVal, hy, hf, hn, hfv, truthyStr, hne2]
    · rcases hf : r.image_file with _ | f
      · by_cases hn : r.name.getD "" = "" <;> by_cases hv : v = "" <;>
          simp [jsonld_obj, jsonld_entries, clean_none, cleanEntry, image_url,
            isEmptyJVal, hy, hf, hn, hv, truthyStr]
      · by_cases hn : r.name.getD "" = "" <;> by_cases hv : v = "" <;>
          by_cases hfv : f = "" <;>
          simp [jsonld_obj, jsonld_entries, clean_none, cleanEntry, image_url,
            isEmptyJVal, hy, hf, hn, hv, hfv, truthyStr, hne2]
  refine ⟨hkeys, fun kv hkv => mem_clean_none hkv, ?_, ?_⟩ <;>
    rw [hkeys] <;> simp

/-- Witness for C6: the retained name entry of `recFull` is non-empty. -/
theorem c6_witness : isEmptyJVal (JVal.s "Apfelkuchen") = false :=
  (c6_jsonld_omits_empty recFull).2.1 ("name", JVal.s "Apfelkuchen") (by decide)

/-- A record passing the required-keys check has all four fields present. -/
theorem requiredMissing_none_isSome {r : RecipeData}
    (h : requiredMissing r = none) :
    r.slug.isSome ∧ r.name.isSome ∧ r.ingredients.isSome ∧
      r.instructions.isSome := by
  unfold requiredMissing at h
  split_ifs at h
  refine ⟨?_, ?_, ?_, ?_⟩ <;> rw [Option.isSome_iff_ne_none] <;> assumption

/-- Claim C7: after a successful load every returned record has its four
required fields present (a record lacking one is rejected at load time). -/
theorem c7_load_invariant (files : List (String × RecipeData))
    (rs : List RecipeData) (h : load_recipes files = Except.ok rs) :
    ∀ r ∈ rs, r.slug.isSome ∧ r.name.isSome ∧ r.ingredients.isSome ∧
      r.instructions.isSome := by
  induction files generalizing rs with
  | nil =>
    unfold load_recipes at h
    cases h
    simp
  | cons fr rest ih =>
    obtain ⟨f, r⟩ := fr
    unfold load_recipes at h
    cases hm : requiredMissing r with
    | some k => rw [hm] at h; cases h
    | none =>
      rw [hm] at h
      cases hrest : load_recipes rest with
      | error e => rw [hrest] at h; cases h
      | ok out =>
        rw [hrest] at h
        cases h
        intro x hx
        rcases List.mem_cons.mp hx with rfl | hx2
        · exact requiredMissing_none_isSome hm
        · exact ih out hrest x hx2

/-- Witness for C7 on the singleton listing `filesOk`. -/
theorem c7_witness :
    recFull.slug.isSome ∧ recFull.name.isSome ∧ recFull.ingredients.isSome ∧
      recFull.instructions.isSome :=
  c7_load_invariant filesOk [recFull] rfl recFull (by simp)

/-- The key reported by the required-keys check is genuinely missing. -/
theorem requiredMissing_some_missing {r : RecipeData} {k : String}
    (h : requiredMissing r = some k) : missingField r k := by
  unfold requiredMissing at h
  split_ifs at h with h1 h2 h3 h4 <;> cases h <;> simp_all [missingField]

/-- If some listed file lacks a required key, the load raises the ValueError
of the first such file in listing order. -/
theorem load_recipes_error (files : List (String × RecipeData))
    (hbad : ∃ fr ∈ files, requiredMissing fr.2 ≠ none) :
    ∃ f2 r2 k, (f2, r2) ∈ files ∧ requiredMissing r2 = some k ∧
      load_recipes files = Except.error (missingMsg f2 k) := by
  induction files with
  | nil => rcases hbad with ⟨fr, h, _⟩; cases h
  | cons fr0 rest ih =>
    obtain ⟨g, s⟩ := fr0
    cases hm : requiredMissing s with
    | some k =>
      exact ⟨g, s, k, List.mem_cons_self _ _, hm, by simp [load_recipes, hm]⟩
    | none =>
      have hbad2 : ∃ fr ∈ rest, requiredMissing fr.2 ≠ none := by
        rcases hbad with ⟨fr, hmem, hne⟩
        rcases List.mem_cons.mp hmem with rfl | h2
        · exact absurd hm hne
        · exact ⟨fr, h2, hne⟩
      obtain ⟨f2, r2, k, hmem2, hk, herr⟩ := ih hbad2
      exact ⟨f2, r2, k, List.mem_cons_of_mem _ hmem2, hk,
        by simp [load_recipes, hm, herr]⟩

/-- Claim C1: if any input file lacks one of the four required keys, the run
aborts with the ValueError of the first such file, and the output tree is
left exactly as it was (no file is written); the error message names the
offending file and its missing field. -/
theorem c1_missing_field_aborts (fs : FS) (files : List (String × RecipeData))
    (f : String) (r : RecipeData) (hmem : (f, r) ∈ files)
    (hbad : requiredMissing r ≠ none) :
    ∃ f2 r2 k, (f2, r2) ∈ files ∧ requiredMissing r2 = some k ∧
      missingField r2 k ∧
      load_recipes files = Except.error (missingMsg f2 k) ∧
      mainBuild fs files = (fs, Except.error (missingMsg f2 k)) := by
  obtain ⟨f2, r2, k, hmem2, hk, herr⟩ :=
    load_recipes_error files ⟨(f, r), hmem, hbad⟩
  exact ⟨f2, r2, k, hmem2, hk, requiredMissing_some_missing hk, herr,
    by simp [mainBuild, herr]⟩

/-- Witness for C1 on the listing `filesBad` (second file lacks `name`). -/
theorem c1_witness :
    ∃ f2 r2 k, (f2, r2) ∈ filesBad ∧ requiredMissing r2 = some k ∧
      missingField r2 k ∧
      load_recipes filesBad = Except.error (missingMsg f2 k) ∧
      mainBuild fsEmpty filesBad = (fsEmpty, Except.error (missingMsg f2 k)) :=
  c1_missing_field_aborts fsEmpty filesBad "b.json" recNoName (by decide)
    (by decide)

/-- The page loop of `mainBuild` equals the sequential application of its
write list. -/
theorem foldl_build_eq_applyWrites (recipes : List RecipeData) (fs : FS) :
    recipes.foldl build_recipe_page fs = applyWrites fs (pageWrites recipes) := by
  induction recipes generalizing fs with
  | nil => rfl
  | cons r rs ih => rw [List.foldl_cons, ih]; rfl

/-- Sequential writes evaluate as "last write to the path wins". -/
theorem applyWrites_eval (ws : List (String × String)) (fs : FS) (q : String) :
    applyWrites fs ws q = (lastAssoc q ws).or (fs q) := by
  induction ws generalizing fs with
  | nil => rfl
  | cons w ws ih =>
    obtain ⟨p, c⟩ := w
    rw [show applyWrites fs ((p, c) :: ws) = applyWrites (fsWrite fs p c) ws
      from rfl, ih]
    cases hl : lastAssoc q ws with
    | some c2 => simp [lastAssoc, hl]
    | none =>
      simp only [lastAssoc, hl, Option.none_or]
      by_cases hpq : q = p
      · subst hpq; simp [fsWrite]
      · have hqp : ¬p = q := fun h => hpq h.symm
        simp [fsWrite, hpq, hqp]

/-- Claim C9: running the build twice on the same input leaves the output
tree byte-identical: the second run rewrites every file with the same
content, so the final state and the reported count are unchanged. -/
theorem c9_idempotent (fs : FS) (files : List (String × RecipeData)) :
    mainBuild (mainBuild fs files).1 files = mainBuild fs files := by
  cases hl : load_recipes files with
  | error e => simp [mainBuild, hl]
  | ok recipes =>
    simp only [mainBuild, hl]
    rw [Prod.mk.injEq]
    refine ⟨?_, rfl⟩
    funext q
    simp only [foldl_build_eq_applyWrites]
    by_cases hq : q = "index.html"
    · subst hq; simp [build_index, fsWrite]
    · have e1 : ∀ g : FS, build_index g recipes q = g q := fun g => by
        simp [build_index, fsWrite, hq]
      rw [e1, e1, applyWrites_eval, applyWrites_eval, e1, applyWrites_eval]
      cases hla : lastAssoc q (pageWrites recipes) <;> simp

/-- Right cancellation for string concatenation. -/
theorem string_append_cancel_right {a b t : String} (h : a ++ t = b ++ t) :
    a = b := by
  apply String.ext
  have h2 := congrArg String.data h
  simp only [String.data_append] at h2
  exact List.append_cancel_right h2

/-- The last write to a slug's page path among the page writes is the page of
the last record carrying that slug. -/
theorem lastAssoc_pageWrites (recipes : List RecipeData) (slug : String) :
    lastAssoc (slug ++ "/index.html") (pageWrites recipes) =
      (lastWithSlug slug recipes).map build_recipe_page_html := by
  induction recipes with
  | nil => rfl
  | cons r rs ih =>
    show lastAssoc _ ((pagePath r, build_recipe_page_html r) :: pageWrites rs) = _
    rw [lastAssoc, ih, lastWithSlug]
    cases hlw : lastWithSlug slug rs with
    | some x => rfl
    | none =>
      simp only [Option.map_none]
      by_cases hs : r.slug.getD "" = slug
      · rw [if_pos (by rw [pagePath, hs]), if_pos hs]
        rfl
      · rw [if_neg ?_, if_neg hs]
        · rfl
        · intro hcontra
          exact hs (string_append_cancel_right (by simpa [pagePath] using hcontra))

/-- Claim C10: when records share a slug, no error is raised and the page at
`{slug}/index.html` after the run is the rendering of the last record (in
listing order) with that slug — later records silently overwrite earlier
ones. -/
theorem c10_last_slug_wins (fs : FS) (files : List (String × RecipeData))
    (recipes : List RecipeData) (slug : String) (r : RecipeData)
    (hl : load_recipes files = Except.ok recipes)
    (hlast : lastWithSlug slug recipes = some r) :
    (mainBuild fs files).2 = Except.ok recipes.length ∧
    (mainBuild fs files).1 (slug ++ "/index.html") =
      some (build_recipe_page_html r) := by
  refine ⟨by simp [mainBuild, hl], ?_⟩
  have hten : ("index.html" : String).length = 10 := rfl
  have helev : ("/index.html" : String).length = 11 := rfl
  have hne : slug ++ "/index.html" ≠ "index.html" := by
    intro h
    have h2 := congrArg String.length h
    rw [String.length_append, hten, helev] at h2
    omega
  simp only [mainBuild, hl]
  show build_index (recipes.foldl build_recipe_page fs) recipes
      (slug ++ "/index.html") = _
  rw [foldl_build_eq_applyWrites]
  simp only [build_index, fsWrite, if_neg hne]
  rw [applyWrites_eval, lastAssoc_pageWrites, hlast]
  rfl

/-- Witness for C10: two records with slug "apfelkuchen"; the run succeeds
and the page under that slug is the second record's rendering. -/
theorem c10_witness :
    (mainBuild fsEmpty filesDup).2 = Except.ok ([recFull, recDup]).length ∧
    (mainBuild fsEmpty filesDup).1 ("apfelkuchen" ++ "/index.html") =
      some (build_recipe_page_html recDup) :=
  c10_last_slug_wins fsEmpty filesDup [recFull, recDup] "apfelkuchen" recDup
    rfl rfl

/-- The uppercase hex digits used by `quote` parse back to their value. -/
theorem hexUpper_ok : ∀ n, n < 16 →
    isHexChar (hexUpper n) = true ∧ hexVal (hexUpper n) = n := by decide

/-- Every character `hexUpper` produces is one of the sixteen digits. -/
theorem hexUpper_mem (n : Nat) : hexUpper n ∈ "0123456789ABCDEF".data := by
  rcases Nat.lt_or_ge n 16 with h | h
  · exact (by decide : ∀ m, m < 16 → hexUpper m ∈ "0123456789ABCDEF".data) n h
  · obtain ⟨k, rfl⟩ : ∃ k, n = k + 16 := ⟨n - 16, by omega⟩
    simp [hexUpper]

/-- A percent escape followed by anything percent-decodes to its byte. -/
theorem unquoteBytes_pct (a b : Char) (t : List Char)
    (h : (isHexChar a && isHexChar b) = true) :
    unquoteBytes ('%' :: a :: b :: t) =
      (hexVal a * 16 + hexVal b) :: unquoteBytes t := by
  simp [unquoteBytes, h]

/-- A character other than `%` percent-decodes to its own UTF-8 bytes. -/
theorem unquoteBytes_cons_ne (c : Char) (rest : List Char) (hc : c ≠ '%') :
    unquoteBytes (c :: rest) = utf8EncodeChar c.toNat ++ unquoteBytes rest := by
  rw [unquoteBytes.eq_def]
  split
  · next heq => simp at heq
  · next a b t heq =>
    injection heq with h1 h2
    exact absurd h1 hc
  · next c2 r2 hno heq =>
    injection heq with h1 h2
    subst h1
    subst h2
    rfl

/-- The UTF-8 encoding of a valid scalar value consists of bytes. -/
theorem utf8EncodeChar_lt_256 (n : Nat) (hn : n < 0x110000) :
    ∀ b ∈ utf8EncodeChar n, b < 256 := by
  intro b hb
  unfold utf8EncodeChar at hb
  split_ifs at hb with h1 h2 h3 <;> simp at hb <;> omega

/-- Unreserved characters are single ASCII bytes and never `%`. -/
theorem isUnreservedByte_facts (c : Char) (h : isUnreservedByte c.toNat = true) :
    c.toNat < 0x80 ∧ c ≠ '%' := by
  unfold isUnreservedByte at h
  simp at h
  have hne : c.toNat ≠ 37 := by omega
  refine ⟨by omega, fun he => hne ?_⟩
  rw [he]
  rfl

/-- A run of percent escapes decodes back to the escaped bytes. -/
theorem unquoteBytes_esc (bs : List Nat) (h : ∀ b ∈ bs, b < 256)
    (rest : List Char) :
    unquoteBytes (bs.flatMap
        (fun b => ['%', hexUpper (b / 16), hexUpper (b % 16)]) ++ rest) =
      bs ++ unquoteBytes rest := by
  induction bs with
  | nil => simp
  | cons b bs ih =>
    have hb : b < 256 := h b (List.mem_cons_self b bs)
    have e1 := hexUpper_ok (b / 16) (by omega)
    have e2 := hexUpper_ok (b % 16) (by omega)
    rw [List.flatMap_cons]
    simp only [List.append_assoc, List.cons_append, List.nil_append]
    rw [unquoteBytes_pct _ _ _ (by rw [e1.1, e2.1]; rfl), e1.2, e2.2,
      ih (fun x hx => h x (List.mem_cons_of_mem b hx))]
    have hb16 : b / 16 * 16 + b % 16 = b := by omega
    rw [hb16]

/-- Percent-decoding one quoted character yields that character's UTF-8
bytes. -/
theorem unquoteBytes_quoteChar (c : Char) (rest : List Char) :
    unquoteBytes (quoteChar c ++ rest) =
      utf8EncodeChar c.toNat ++ unquoteBytes rest := by
  by_cases h : isUnreservedByte c.toNat
  · rw [quoteChar, if_pos h]
    obtain ⟨_, hne⟩ := isUnreservedByte_facts c h
    exact unquoteBytes_cons_ne c rest hne
  · rw [quoteChar, if_neg h]
    have hv2 : c.toNat < 0xD800 ∨ (0xDFFF < c.toNat ∧ c.toNat < 0x110000) :=
      c.valid
    have hlt : c.toNat < 0x110000 := by
      rcases hv2 with hv | ⟨_, hv⟩ <;> omega
    exact unquoteBytes_esc _ (utf8EncodeChar_lt_256 _ hlt) rest

/-- Percent-decoding the quoted string yields the string's UTF-8 bytes. -/
theorem unquoteBytes_quote (l : List Char) :
    unquoteBytes (l.flatMap quoteChar) =
      l.flatMap (fun c => utf8EncodeChar c.toNat) := by
  induction l with
  | nil => rfl
  | cons c l ih =>
    rw [List.flatMap_cons, List.flatMap_cons, unquoteBytes_quoteChar, ih]

/-- UTF-8 decoding undoes the encoding of one character at the front. -/
theorem utf8Decode_encode_cons (c : Char) (bs : List Nat) :
    utf8Aux 0 0 0 (utf8EncodeChar c.toNat ++ bs) =
      (utf8Aux 0 0 0 bs).map (fun cs => c :: cs) := by
  have hv : c.toNat < 0xD800 ∨ (0xDFFF < c.toNat ∧ c.toNat < 0x110000) :=
    c.valid
  by_cases h1 : c.toNat < 0x80
  · rw [utf8EncodeChar, if_pos h1]
    show utf8Aux 0 0 0 (c.toNat :: bs) = _
    simp only [utf8Aux]
    rw [if_pos h1]
    simp only [Char.ofNat_toNat]
  · by_cases h2 : c.toNat < 0x800
    · rw [utf8EncodeChar, if_neg h1, if_pos h2]
      show utf8Aux 0 0 0
        ((0xC0 + c.toNat / 0x40) :: (0x80 + c.toNat % 0x40) :: bs) = _
      simp only [utf8Aux]
      rw [if_neg (by omega), if_neg (by omega), if_pos (by omega),
        if_pos (by omega), if_pos (by omega)]
      simp only [show (0xC0 + c.toNat / 0x40 - 0xC0) * 0x40 +
        (0x80 + c.toNat % 0x40 - 0x80) = c.toNat from by omega,
        Char.ofNat_toNat]
    · by_cases h3 : c.toNat < 0x10000
      · rw [utf8EncodeChar, if_neg h1, if_neg h2, if_pos h3]
        show utf8Aux 0 0 0 ((0xE0 + c.toNat / 0x1000) ::
          (0x80 + c.toNat / 0x40 % 0x40) :: (0x80 + c.toNat % 0x40) :: bs) = _
        simp only [utf8Aux]
        have harith : ((0xE0 + c.toNat / 0x1000 - 0xE0) * 0x40 +
            (0x80 + c.toNat / 0x40 % 0x40 - 0x80)) * 0x40 +
            (0x80 + c.toNat % 0x40 - 0x80) = c.toNat := by omega
        rw [if_neg (by omega), if_neg (by omega), if_neg (by omega),
          if_pos (by omega), if_pos (by omega), if_pos (by omega),
          if_pos (by omega)]
        simp only [harith, Char.ofNat_toNat]
      · have h4 : c.toNat < 0x110000 := by
          rcases hv with h | ⟨_, h⟩ <;> omega
        rw [utf8EncodeChar, if_neg h1, if_neg h2, if_neg h3]
        show utf8Aux 0 0 0 ((0xF0 + c.toNat / 0x40000) ::
          (0x80 + c.toNat / 0x1000 % 0x40) :: (0x80 + c.toNat / 0x40 % 0x40) ::
          (0x80 + c.toNat % 0x40) :: bs) = _
        simp only [utf8Aux]
        have harith : (((0xF0 + c.toNat / 0x40000 - 0xF0) * 0x40 +
            (0x80 + c.toNat / 0x1000 % 0x40 - 0x80)) * 0x40 +
            (0x80 + c.toNat / 0x40 % 0x40 - 0x80)) * 0x40 +
            (0x80 + c.toNat % 0x40 - 0x80) = c.toNat := by omega
        rw [if_neg (by omega), if_neg (by omega), if_neg (by omega),
          if_neg (by omega), if_pos (by omega), if_pos (by omega),
          if_pos (by omega), if_pos (by omega), if_pos (by omega)]
        simp only [harith, Char.ofNat_toNat]

/-- UTF-8 decoding undoes the characterwise UTF-8 encoding. -/
theorem utf8Decode_encode (l : List Char) :
    utf8Aux 0 0 0 (l.flatMap (fun c => utf8EncodeChar c.toNat)) = some l := by
  induction l with
  | nil => rfl
  | cons c l ih =>
    rw [List.flatMap_cons, utf8Decode_encode_cons, ih]
    rfl

/-- `unquote` is a left inverse of `quote`. -/
theorem unquote_quote (s : String) : unquote (quote s) = some s := by
  show (utf8Decode (unquoteBytes (s.data.flatMap quoteChar))).map String.mk =
    some s
  rw [show utf8Decode = utf8Aux 0 0 0 from rfl, unquoteBytes_quote,
    utf8Decode_encode]
  rfl

/-- Searching for a pattern skips any leading text free of its first
character. -/
theorem afterPat_skip (p : Char) (ps l rest : List Char) (hp : p ∉ l) :
    afterPat (p :: ps) (l ++ rest) = afterPat (p :: ps) rest := by
  induction l with
  | nil => rfl
  | cons c l ih =>
    have hpc : (p == c) = false := by
      have hne : p ≠ c := fun h => hp (by rw [h]; exact List.mem_cons_self c l)
      simp [hne]
    rw [List.cons_append]
    show afterPat (p :: ps) (c :: (l ++ rest)) = _
    rw [afterPat.eq_def]
    simp only [List.isPrefixOf, hpc, Bool.false_and, Bool.false_eq_true,
      if_false]
    exact ih (fun hm => hp (List.mem_cons_of_mem c hm))

/-- The text right after a leading `url=` is everything behind it. -/
theorem afterPat_url (rest : List Char) :
    afterPat "url=".data ("url=".data ++ rest) = rest := by
  rw [show ("url=" : String).data = 'u' :: 'r' :: 'l' :: '=' :: [] from rfl]
  rw [afterPat.eq_def]
  simp [List.isPrefixOf]

/-- Taking until `&` recovers an ampersand-free prefix. -/
theorem takeUntilAmp_append (l rest : List Char) (hl : '&' ∉ l) :
    takeUntilAmp (l ++ '&' :: rest) = l := by
  induction l with
  | nil => simp [takeUntilAmp]
  | cons c l ih =>
    have hc : ¬ c = '&' := fun h => hl (by rw [h]; exact List.mem_cons_self _ _)
    rw [List.cons_append]
    show takeUntilAmp (c :: (l ++ '&' :: rest)) = _
    rw [takeUntilAmp, if_neg hc, ih (fun hm => hl (List.mem_cons_of_mem c hm))]

/-- The output of `quote` never contains an ampersand. -/
theorem quote_no_amp (s : String) : '&' ∉ (quote s).data := by
  show '&' ∉ s.data.flatMap quoteChar
  intro hmem
  rcases List.mem_flatMap.mp hmem with ⟨c, _, hc⟩
  unfold quoteChar at hc
  split_ifs at hc with h
  · simp at hc
    rw [← hc] at h
    exact absurd h (by decide)
  · rcases List.mem_flatMap.mp hc with ⟨b, _, hb⟩
    rcases List.mem_cons.mp hb with h1 | hb2
    · exact absurd h1 (by decide)
    rcases List.mem_cons.mp hb2 with h1 | hb3
    · have hm2 := hexUpper_mem (b / 16)
      rw [← h1] at hm2
      exact absurd hm2 (by decide)
    rcases List.mem_cons.mp hb3 with h1 | hb4
    · have hm2 := hexUpper_mem (b % 16)
      rw [← h1] at hm2
      exact absurd hm2 (by decide)
    · exact absurd hb4 (by simp)

/-- The `url` query parameter of the import link is exactly the quoted
canonical page URL. -/
theorem urlParam_bring_link (r : RecipeData) :
    urlParam (bring_link r) = quote (recipe_url r) := by
  unfold urlParam bring_link
  have hA : ("https://api.getbring.com/rest/bringrecipes/deeplink?url=" :
      String).data =
      ("https://api.getbring.com/rest/bringrecipes/deeplink?" : String).data ++
        ("url=" : String).data := by decide
  have hB : ("&source=web" : String).data =
      '&' :: ("source=web" : String).data := rfl
  rw [String.data_append, String.data_append, hA, hB, List.append_assoc,
    List.append_assoc]
  rw [show ("url=" : String).data = 'u' :: "rl=".data from rfl]
  rw [afterPat_skip 'u' _ _ _
    (by decide :
      'u' ∉ ("https://api.getbring.com/rest/bringrecipes/deeplink?" :
        String).data)]
  rw [show 'u' :: ("rl=" : String).data = ("url=" : String).data from rfl]
  rw [afterPat_url, takeUntilAmp_append _ _ (quote_no_amp _)]

/-- Claim C2: the import link on every page is the fixed Bring endpoint with
the percent-encoded canonical page URL `{base}/{slug}/` as its `url` query
parameter, and percent-decoding that parameter yields exactly the canonical
URL back. -/
theorem c2_import_link (r : RecipeData) :
    bring_link r =
      "https://api.getbring.com/rest/bringrecipes/deeplink?url=" ++
        quote (recipe_url r) ++ "&source=web" ∧
    urlParam (bring_link r) = quote (recipe_url r) ∧
    unquote (urlParam (bring_link r)) = some (recipe_url r) := by
  refine ⟨rfl, urlParam_bring_link r, ?_⟩
  rw [urlParam_bring_link r, unquote_quote]

/-- An occurrence inside a concatenation lies in the right part, or starts
inside a non-empty suffix of the left part. -/
theorem infix_append_cases {α : Type} {p a b : List α} (h : p <:+: a ++ b) :
    p <:+: b ∨ ∃ a2, a2 <:+ a ∧ a2 ≠ [] ∧ p <+: a2 ++ b := by
  rcases List.infix_iff_prefix_suffix.mp h with ⟨t0, hp, hs⟩
  rcases hs with ⟨u, hu⟩
  by_cases hl : a.length ≤ u.length
  · left
    have h1 : b = u.drop a.length ++ t0 := by
      have h2 : (u ++ t0).drop a.length = (a ++ b).drop a.length := by rw [hu]
      rw [List.drop_append_of_le_length hl, List.drop_left] at h2
      exact h2.symm
    exact List.infix_iff_prefix_suffix.mpr ⟨t0, hp, ⟨u.drop a.length, h1.symm⟩⟩
  · right
    refine ⟨a.drop u.length, List.drop_suffix _ _, ?_, ?_⟩
    · intro hnil
      have hlen := congrArg List.length hnil
      simp at hlen
      omega
    · have h1 : t0 = a.drop u.length ++ b := by
        have h2 : (u ++ t0).drop u.length = (a ++ b).drop u.length := by rw [hu]
        rw [List.drop_left, List.drop_append_of_le_length (by omega)] at h2
        exact h2
      rw [← h1]
      exact hp

/-- For an expansion function whose multi-character outputs start outside
the closing tag, a prefix made of closing-tag characters lifts through
`flatMap`. -/
theorem prefix_flat (f : Char → List Char)
    (H : ∀ c, f c = [c] ∨ ∃ d t, f c = d :: t ∧ d ∉ closeTag ∧ '<' ∉ f c) :
    ∀ (l q : List Char), (∀ d ∈ q, d ∈ closeTag) → q <+: l.flatMap f →
      q <+: l := by
  intro l
  induction l with
  | nil =>
    intro q _ hp
    simp only [List.flatMap_nil, List.prefix_nil] at hp
    simp [hp]
  | cons c l ih =>
    intro q hq hp
    cases q with
    | nil => exact List.nil_prefix
    | cons d q' =>
      rw [List.flatMap_cons] at hp
      rcases H c with hc | ⟨e, t, he, hent, _⟩
      · rw [hc, List.singleton_append] at hp
        rcases List.cons_prefix_cons.mp hp with ⟨rfl, hp2⟩
        exact List.cons_prefix_cons.mpr ⟨rfl,
          ih q' (fun x hx => hq x (List.mem_cons_of_mem d hx)) hp2⟩
      · rw [he, List.cons_append] at hp
        rcases List.cons_prefix_cons.mp hp with ⟨hde, _⟩
        exact absurd (hde ▸ hq d (List.mem_cons_self d q')) hent

/-- For such an expansion function, a closing-tag occurrence in the
`flatMap` output implies one in the input. -/
theorem infix_flat (f : Char → List Char)
    (H : ∀ c, f c = [c] ∨ ∃ d t, f c = d :: t ∧ d ∉ closeTag ∧ '<' ∉ f c) :
    ∀ l : List Char, closeTag <:+: l.flatMap f → closeTag <:+: l := by
  have hpe : closeTag = '<' :: ("/script>").data := by decide
  intro l
  induction l with
  | nil =>
    intro h
    rw [List.flatMap_nil, List.infix_nil] at h
    exact absurd h (by decide)
  | cons c l ih =>
    intro h
    rw [List.flatMap_cons] at h
    rcases infix_append_cases h with h2 | ⟨a2, hsuf, hne, hpre⟩
    · exact List.infix_cons (ih h2)
    · cases a2 with
      | nil => exact absurd rfl hne
      | cons e a2' =>
        rw [hpe, List.cons_append] at hpre
        rcases List.cons_prefix_cons.mp hpre with ⟨hlt, htail⟩
        have hmem : '<' ∈ f c := hsuf.subset
          (by rw [hlt]; exact List.mem_cons_self e a2')
        rcases H c with hc | ⟨d0, t0, _, _, hnolt⟩
        · have hceq : '<' = c := by
            rw [hc] at hmem
            simpa using hmem
          rcases hsuf with ⟨u, hu⟩
          rw [hc] at hu
          have hulen := congrArg List.length hu
          simp at hulen
          have hu0 : u = [] := List.eq_nil_of_length_eq_zero (by omega)
          have ha20 : a2' = [] := List.eq_nil_of_length_eq_zero (by omega)
          subst hu0
          subst ha20
          have htail2 : ("/script>").data <+: l.flatMap f := by
            simpa using htail
          have htail3 := prefix_flat f H l _ (by decide) htail2
          have hfin : closeTag <+: c :: l := by
            rw [hpe]
            exact List.cons_prefix_cons.mpr ⟨hceq, htail3⟩
          exact hfin.isInfix
        · exact absurd hmem hnolt

/-- Every character `hexLower` produces is one of the sixteen digits. -/
theorem hexLower_mem (n : Nat) : hexLower n ∈ "0123456789abcdef".data := by
  rcases Nat.lt_or_ge n 16 with h | h
  · exact (by decide : ∀ m, m < 16 → hexLower m ∈ "0123456789abcdef".data) n h
  · obtain ⟨k, rfl⟩ : ∃ k, n = k + 16 := ⟨n - 16, by omega⟩
    simp [hexLower]

/-- The `json.dumps` escape expansions are single plain characters, or start
with a backslash and never contain `<`. -/
theorem expandChar_H : ∀ c, expandChar c = [c] ∨
    ∃ d t, expandChar c = d :: t ∧ d ∉ closeTag ∧ '<' ∉ expandChar c := by
  intro c
  unfold expandChar
  split_ifs with h1 h2 h3 h4 h5 h6 h7 h8
  · exact Or.inr ⟨'\\', _, rfl, by decide, by decide⟩
  · exact Or.inr ⟨'\\', _, rfl, by decide, by decide⟩
  · exact Or.inr ⟨'\\', _, rfl, by decide, by decide⟩
  · exact Or.inr ⟨'\\', _, rfl, by decide, by decide⟩
  · exact Or.inr ⟨'\\', _, rfl, by decide, by decide⟩
  · exact Or.inr ⟨'\\', _, rfl, by decide, by decide⟩
  · exact Or.inr ⟨'\\', _, rfl, by decide, by decide⟩
  · refine Or.inr ⟨'\\', _, rfl, by decide, ?_⟩
    intro hm
    rcases List.mem_cons.mp hm with h0 | hm
    · exact absurd h0 (by decide)
    rcases List.mem_cons.mp hm with h0 | hm
    · exact absurd h0 (by decide)
    rcases List.mem_cons.mp hm with h0 | hm
    · exact absurd h0 (by decide)
    rcases List.mem_cons.mp hm with h0 | hm
    · exact absurd h0 (by decide)
    rcases List.mem_cons.mp hm with h0 | hm
    · have hmm := hexLower_mem (c.toNat / 16)
      rw [← h0] at hmm
      exact absurd hmm (by decide)
    rcases List.mem_cons.mp hm with h0 | hm
    · have hmm := hexLower_mem (c.toNat % 16)
      rw [← h0] at hmm
      exact absurd hmm (by decide)
    · exact absurd hm (by simp)
  · exact Or.inl rfl

/-- The line-indentation expansions are single plain characters, or start
with a newline and never contain `<`. -/
theorem indentChar_H : ∀ c, indentChar c = [c] ∨
    ∃ d t, indentChar c = d :: t ∧ d ∉ closeTag ∧ '<' ∉ indentChar c := by
  intro c
  unfold indentChar
  split_ifs with h1
  · exact Or.inr ⟨'\n', _, rfl, by decide, by decide⟩
  · exact Or.inl rfl

/-- Appending keeps text free of the closing tag, when either the left part
has no `<` at all or the right part starts outside the closing tag. -/
theorem safe_append {a b : List Char} (ha : ¬ closeTag <:+: a)
    (hb : ¬ closeTag <:+: b)
    (hside : '<' ∉ a ∨ ∀ h, b.head? = some h → h ∉ closeTag) :
    ¬ closeTag <:+: a ++ b := by
  have hpe : closeTag = '<' :: ("/script>").data := by decide
  intro h
  rcases infix_append_cases h with h2 | ⟨a2, hsuf, hne, hpre⟩
  · exact hb h2
  · rcases hside with hlt | hhd
    · cases a2 with
      | nil => exact hne rfl
      | cons e a2' =>
        rw [hpe, List.cons_append] at hpre
        rcases List.cons_prefix_cons.mp hpre with ⟨hlt2, _⟩
        exact hlt (hsuf.subset (by rw [hlt2]; exact List.mem_cons_self e a2'))
    · by_cases hlen : closeTag.length ≤ a2.length
      · have hpre2 : closeTag <+: a2 := by
          rcases hpre with ⟨t, ht⟩
          have h2 : (closeTag ++ t).take closeTag.length =
              (a2 ++ b).take closeTag.length := by rw [ht]
          rw [List.take_left, List.take_append_of_le_length hlen] at h2
          exact List.prefix_iff_eq_take.mpr h2
        exact ha (hpre2.isInfix.trans hsuf.isInfix)
      · push_neg at hlen
        rcases hpre with ⟨t, ht⟩
        have hbeq : b = closeTag.drop a2.length ++ t := by
          have h2 : (closeTag ++ t).drop a2.length =
              (a2 ++ b).drop a2.length := by rw [ht]
          rw [List.drop_left, List.drop_append_of_le_length (by omega)] at h2
          exact h2.symm
        cases hcd : closeTag.drop a2.length with
        | nil =>
          have hlen2 := congrArg List.length hcd
          simp at hlen2
          omega
        | cons x xs =>
          have hx : x ∈ closeTag :=
            List.drop_subset a2.length closeTag
              (by rw [hcd]; exact List.mem_cons_self x xs)
          have hbh : b.head? = some x := by rw [hbeq, hcd]; rfl
          exact hhd x hbh hx

/-- `safe_append` when the left part is `<`-free. -/
theorem safe_append_left {a b : List Char} (ha : ¬ closeTag <:+: a)
    (hb : ¬ closeTag <:+: b) (hlt : '<' ∉ a) : ¬ closeTag <:+: a ++ b :=
  safe_append ha hb (Or.inl hlt)

/-- Escaping keeps a string free of the closing tag. -/
theorem jsonEsc_safe (s : String) (hs : ¬ closeTag <:+: s.data) :
    ¬ closeTag <:+: (jsonEsc s).data :=
  fun h => hs (infix_flat expandChar expandChar_H s.data h)

/-- A JSON string literal of tag-free content is tag-free. -/
theorem strLit_safe (s : String) (hs : ¬ closeTag <:+: s.data) :
    ¬ closeTag <:+: (strLit s).data := by
  show ¬ closeTag <:+: ("\"" ++ jsonEsc s ++ "\"").data
  rw [String.data_append, String.data_append, List.append_assoc]
  apply safe_append_left (by decide) ?_ (by decide)
  apply safe_append (jsonEsc_safe s hs) (by decide) (Or.inr ?_)
  intro h hh
  injection hh with hh2
  rw [← hh2]
  decide

/-- Joining tag-free pieces with a `<`-free separator that starts outside
the closing tag stays tag-free. -/
theorem joinSep_safe (sep : String) (l : List String)
    (hsep : ¬ closeTag <:+: sep.data) (hlt : '<' ∉ sep.data)
    (hne : sep.data ≠ [])
    (hhead : ∀ h, sep.data.head? = some h → h ∉ closeTag)
    (hl : ∀ x ∈ l, ¬ closeTag <:+: x.data) :
    ¬ closeTag <:+: (joinSep sep l).data := by
  induction l with
  | nil =>
    rw [show joinSep sep [] = "" from rfl]
    decide
  | cons x xs ih =>
    cases xs with
    | nil => exact hl x (List.mem_cons_self x [])
    | cons y ys =>
      show ¬ closeTag <:+: (x ++ sep ++ joinSep sep (y :: ys)).data
      rw [String.data_append, String.data_append, List.append_assoc]
      refine safe_append (hl x (List.mem_cons_self x (y :: ys)))
        (safe_append_left hsep
          (ih (fun z hz => hl z (List.mem_cons_of_mem x hz))) hlt)
        (Or.inr ?_)
      cases hsd : sep.data with
      | nil => exact absurd hsd hne
      | cons c cs =>
        intro h hh
        rw [List.cons_append] at hh
        injection hh with hh2
        rw [← hh2]
        exact hhead c (by rw [hsd]; rfl)

/-- The dumped ingredient list of tag-free items is tag-free. -/
theorem dumpStrList_safe (xs : List String)
    (h : ∀ x ∈ xs, ¬ closeTag <:+: x.data) :
    ¬ closeTag <:+: (dumpStrList xs).data := by
  cases xs with
  | nil => exact (by decide)
  | cons x xs =>
    show ¬ closeTag <:+:
      ("[\n    " ++ joinSep ",\n    " ((x :: xs).map strLit) ++ "\n  ]").data
    rw [String.data_append, String.data_append, List.append_assoc]
    apply safe_append_left (by decide) ?_ (by decide)
    apply safe_append ?_ (by decide) (Or.inr ?_)
    · apply joinSep_safe _ _ (by decide) (by decide) (by decide) ?_ ?_
      · intro h2 hh
        injection hh with hh2
        rw [← hh2]
        decide
      · intro z hz
        rcases List.mem_map.mp hz with ⟨w, hw, rfl⟩
        exact strLit_safe w (h w hw)
    · intro h2 hh
      injection hh with hh2
      rw [← hh2]
      decide

/-- One dumped HowToStep object with tag-free text is tag-free. -/
theorem dumpStep_safe (t : String) (ht : ¬ closeTag <:+: t.data) :
    ¬ closeTag <:+: (dumpStep t).data := by
  show ¬ closeTag <:+:
    ("\x7b\n      \"@type\": \"HowToStep\",\n      \"text\": " ++ strLit t ++
      "\n    \x7d").data
  rw [String.data_append, String.data_append, List.append_assoc]
  apply safe_append_left (by decide) ?_ (by decide)
  apply safe_append (strLit_safe t ht) (by decide) (Or.inr ?_)
  intro h hh
  injection hh with hh2
  rw [← hh2]
  decide

/-- The dumped instruction list with tag-free step texts is tag-free. -/
theorem dumpSteps_safe (ts : List String)
    (h : ∀ x ∈ ts, ¬ closeTag <:+: x.data) :
    ¬ closeTag <:+: (dumpSteps ts).data := by
  cases ts with
  | nil => exact (by decide)
  | cons x xs =>
    show ¬ closeTag <:+:
      ("[\n    " ++ joinSep ",\n    " ((x :: xs).map dumpStep) ++ "\n  ]").data
    rw [String.data_append, String.data_append, List.append_assoc]
    apply safe_append_left (by decide) ?_ (by decide)
    apply safe_append ?_ (by decide) (Or.inr ?_)
    · apply joinSep_safe _ _ (by decide) (by decide) (by decide) ?_ ?_
      · intro h2 hh
        injection hh with hh2
        rw [← hh2]
        decide
      · intro z hz
        rcases List.mem_map.mp hz with ⟨w, hw, rfl⟩
        exact dumpStep_safe w (h w hw)
    · intro h2 hh
      injection hh with hh2
      rw [← hh2]
      decide

/-- One dumped key/value item with a tag-free key literal and value dump is
tag-free. -/
theorem dumpPair_safe (kv : String × JVal)
    (hk : ¬ closeTag <:+: (strLit kv.1).data)
    (hv : ¬ closeTag <:+: (dumpJVal kv.2).data) :
    ¬ closeTag <:+: (dumpPair kv).data := by
  show ¬ closeTag <:+: (strLit kv.1 ++ ": " ++ dumpJVal kv.2).data
  rw [String.data_append, String.data_append, List.append_assoc]
  apply safe_append hk (safe_append_left (by decide) hv (by decide))
    (Or.inr ?_)
  intro h hh
  injection hh with hh2
  rw [← hh2]
  decide

/-- The dumped top-level object of tag-free items is tag-free. -/
theorem dumpObj_safe (o : List (String × JVal))
    (h : ∀ kv ∈ o, ¬ closeTag <:+: (dumpPair kv).data) :
    ¬ closeTag <:+: (dumpObj o).data := by
  cases o with
  | nil => exact (by decide)
  | cons x xs =>
    show ¬ closeTag <:+:
      ("\x7b\n  " ++ joinSep ",\n  " ((x :: xs).map dumpPair) ++ "\n\x7d").data
    rw [String.data_append, String.data_append, List.append_assoc]
    apply safe_append_left (by decide) ?_ (by decide)
    apply safe_append ?_ (by decide) (Or.inr ?_)
    · apply joinSep_safe _ _ (by decide) (by decide) (by decide) ?_ ?_
      · intro h2 hh
        injection hh with hh2
        rw [← hh2]
        decide
      · intro z hz
        rcases List.mem_map.mp hz with ⟨w, hw, rfl⟩
        exact h w hw
    · intro h2 hh
      injection hh with hh2
      rw [← hh2]
      decide

/-- A pair kept by `clean_none` came from the entry list with its value. -/
theorem clean_none_mem_entries {l : List (String × Option JVal)}
    {kv : String × JVal} (h : kv ∈ clean_none l) : (kv.1, some kv.2) ∈ l := by
  unfold clean_none at h
  obtain ⟨⟨k0, v0⟩, hmem, hf⟩ := List.mem_filterMap.mp h
  cases v0 with
  | none => cases hf
  | some v =>
    rw [show cleanEntry (k0, some v) =
        if isEmptyJVal v = true then none else some (k0, v) from rfl] at hf
    by_cases he : isEmptyJVal v = true
    · rw [if_pos he] at hf; cases hf
    · rw [if_neg he] at hf
      injection hf with hf2
      subst hf2
      exact hmem

/-- Claim C8 (amended): the serialized structured-data text embedded in the
script block never contains a closing script tag, provided none of the
serialized field texts (name, yield, image filename, ingredients,
instructions) contains the literal sequence `</script>` itself.  (The
serialization escapes quotes, backslashes and control characters, but not
`<` or `/`, so a field containing the closing-tag sequence passes through
verbatim — see the counterexample.) -/
theorem c8_no_premature_close (r : RecipeData)
    (hn : noCloseTag (r.name.getD ""))
    (hy : noCloseTag (r.yield.getD ""))
    (hf : noCloseTag (r.image_file.getD ""))
    (hi : ∀ x ∈ r.ingredients.getD [], noCloseTag x)
    (hs : ∀ x ∈ r.instructions.getD [], noCloseTag x) :
    noCloseTag (jsonld r) := by
  unfold noCloseTag at hn hy hf ⊢
  have hpairs : ∀ kv ∈ jsonld_obj r, ¬ closeTag <:+: (dumpPair kv).data := by
    intro kv hkv
    have hent := clean_none_mem_entries hkv
    unfold jsonld_entries at hent
    simp only [List.mem_cons, List.not_mem_nil, or_false] at hent
    rcases hent with h0 | h0 | h0 | h0 | h0 | h0 | h0 <;>
      rw [Prod.mk.injEq] at h0
    · obtain ⟨hk1, hk2⟩ := h0
      injection hk2 with hk2
      refine dumpPair_safe kv ?_ ?_
      · rw [hk1]; decide
      · rw [hk2]; decide
    · obtain ⟨hk1, hk2⟩ := h0
      injection hk2 with hk2
      refine dumpPair_safe kv ?_ ?_
      · rw [hk1]; decide
      · rw [hk2]; decide
    · obtain ⟨hk1, hk2⟩ := h0
      injection hk2 with hk2
      refine dumpPair_safe kv ?_ ?_
      · rw [hk1]; decide
      · rw [hk2]
        exact strLit_safe _ hn
    · obtain ⟨hk1, hk2⟩ := h0
      cases himg : image_url r with
      | none => rw [himg] at hk2; cases hk2
      | some u =>
        rw [himg] at hk2
        injection hk2 with hk2
        have hu : u = REPO_PAGES_BASE ++ "/" ++ ASSETS_IMAGES ++ "/" ++
            r.image_file.getD "" := by
          unfold image_url at himg
          split_ifs at himg
          injection himg with himg2
          exact himg2.symm
        refine dumpPair_safe kv ?_ ?_
        · rw [hk1]; decide
        · rw [hk2]
          refine strLit_safe _ ?_
          rw [hu, String.data_append]
          exact safe_append_left (by decide) hf (by decide)
    · obtain ⟨hk1, hk2⟩ := h0
      cases hyv : r.yield with
      | none => rw [hyv] at hk2; cases hk2
      | some v =>
        rw [hyv] at hk2
        injection hk2 with hk2
        have hv2 : ¬ closeTag <:+: v.data := by rw [hyv] at hy; exact hy
        refine dumpPair_safe kv ?_ ?_
        · rw [hk1]; decide
        · rw [hk2]
          exact strLit_safe _ hv2
    · obtain ⟨hk1, hk2⟩ := h0
      injection hk2 with hk2
      refine dumpPair_safe kv ?_ ?_
      · rw [hk1]; decide
      · rw [hk2]
        exact dumpStrList_safe _ (fun x hx => hi x hx)
    · obtain ⟨hk1, hk2⟩ := h0
      injection hk2 with hk2
      refine dumpPair_safe kv ?_ ?_
      · rw [hk1]; decide
      · rw [hk2]
        exact dumpSteps_safe _ (fun x hx => hs x hx)
  show ¬ closeTag <:+: (pyIndent (dumpObj (jsonld_obj r))).data
  unfold pyIndent
  rw [String.data_append]
  apply safe_append_left (by decide) ?_ (by decide)
  show ¬ closeTag <:+: ((dumpObj (jsonld_obj r)).data.flatMap indentChar)
  intro hcontra
  exact dumpObj_safe _ hpairs (infix_flat indentChar indentChar_H _ hcontra)

/-- Witness for the amended C8 at `recFull`, whose fields are free of the
closing-tag sequence. -/
theorem c8_witness : noCloseTag (jsonld recFull) :=
  c8_no_premature_close recFull (by unfold noCloseTag; decide)
    (by unfold noCloseTag; decide) (by unfold noCloseTag; decide)
    (by intro x hx; unfold noCloseTag; simp only [recFull] at hx;
        simp only [Option.getD, List.mem_cons, List.not_mem_nil,
          or_false] at hx;
        rcases hx with rfl | rfl <;> decide)
    (by intro x hx; unfold noCloseTag; simp only [recFull] at hx;
        simp only [Option.getD, List.mem_cons, List.not_mem_nil,
          or_false] at hx;
        rcases hx with rfl | rfl <;> decide)

set_option maxRecDepth 100000 in
/-- Counterexample to C8 as stated: a record whose name field contains
`</script>` produces embedded structured-data text that does contain the
closing tag — field content can prematurely close the script block. -/
theorem c8_counterexample :
    recEvil.name = some "x</script>y" ∧ closeTag <:+: (jsonld recEvil).data :=
  ⟨rfl, by decide⟩
